import Mathlib

/-!
Shallow embedding of the MSI water chemical-potential notebook
(`src/project_2.ipynb`).  Coordinates are modelled as exact rationals,
grids as total functions on natural indices, and the numpy/Python
indexing semantics (negative-index wrap-around, `IndexError` outside
`[-dim, dim)`) is made explicit.
-/

namespace MSI

/-- A 3D coordinate (one row `coords[atom, :, frame]` of the coordinate
array), modelled exactly over the rationals. -/
structure Coord3 where
  x : ℚ
  y : ℚ
  z : ℚ
deriving DecidableEq

/-- Python 3 `round` on a real value: round half to even (banker's
rounding), as used in `int(round(coords[i]))`; `int` on the resulting
integer is the identity.  The fractional part `q - ⌊q⌋` is below,
above, or exactly one half according as `2q` compares with `2⌊q⌋ + 1`;
on an exact half the even neighbour is chosen. -/
def pyRound (q : ℚ) : ℤ :=
  if 2 * q < ((2 * ⌊q⌋ + 1 : ℤ) : ℚ) then ⌊q⌋
  else if ((2 * ⌊q⌋ + 1 : ℤ) : ℚ) < 2 * q then ⌊q⌋ + 1
  else if ⌊q⌋ % 2 = 0 then ⌊q⌋ else ⌊q⌋ + 1

/-- One atom record of a `Molecule`: whether the selection
`water and name OH2` matches it, and its coordinate per frame. -/
structure AtomR where
  isWaterOH2 : Bool
  coords : List Coord3
deriving DecidableEq

/-- An HTMD `Molecule` with a loaded trajectory: the atom table and the
`step` array (one entry per frame). -/
structure Molecule where
  atoms : List AtomR
  step : List ℕ
deriving DecidableEq

/-- Translate a coordinate by a vector. -/
def translate (v : Coord3) (c : Coord3) : Coord3 :=
  ⟨c.x + v.x, c.y + v.y, c.z + v.z⟩

/-- `Molecule.moveBy(vec)`: translate every atom in every frame. -/
def moveBy (m : Molecule) (v : Coord3) : Molecule :=
  { m with atoms := m.atoms.map (fun a => { a with coords := a.coords.map (translate v) }) }

/-- `mol.filter('water and name OH2')`: keep only the matching atoms;
the `step` array is unchanged. -/
def filterWater (m : Molecule) : Molecule :=
  { m with atoms := m.atoms.filter (fun a => a.isWaterOH2) }

/-- The water duplicate object built in each iteration of the binning
loop: `water = molTraj.copy(); water.filter('water and name OH2')`,
after `molTraj.moveBy([D_max,D_max,D_max])`. -/
def waterOf (D : ℚ) (m : Molecule) : Molecule :=
  filterWater (moveBy m ⟨D, D, D⟩)

/-- The 3D count matrix `np.zeros((dim,dim,dim))`, as a total function
on natural indices; cells outside the allocated cube stay `0`. -/
def Grid := ℕ → ℕ → ℕ → ℕ

/-- The all-zero grid. -/
def zeroGrid : Grid := fun _ _ _ => 0

/-- Increment one cell of the grid. -/
def bump (g : Grid) (a b c : ℕ) : Grid :=
  fun p q r => if p = a ∧ q = b ∧ r = c then g p q r + 1 else g p q r

/-- numpy basic indexing of an axis of length `dim` by a Python int:
indices in `[0, dim)` are taken as written, indices in `[-dim, 0)` wrap
to the opposite edge, anything else raises `IndexError` (`none`). -/
def idx (dim : ℕ) (r : ℤ) : Option ℕ :=
  if 0 ≤ r ∧ r < (dim : ℤ) then some r.toNat
  else if -(dim : ℤ) ≤ r ∧ r < 0 then some (r + dim).toNat
  else none

/-- The effective cell index a Python int resolves to when the access
succeeds: nonnegative indices unchanged, negative ones wrapped. -/
def wrapI (dim : ℕ) (r : ℤ) : ℕ :=
  if 0 ≤ r then r.toNat else (r + dim).toNat

/-- The cell touched by
`matrix[int(round(coords[0]))][int(round(coords[1]))][int(round(coords[2]))]`,
or `none` when the chained access raises `IndexError`. -/
def atomCell (dim : ℕ) (c : Coord3) : Option (ℕ × ℕ × ℕ) :=
  match idx dim (pyRound c.x), idx dim (pyRound c.y), idx dim (pyRound c.z) with
  | some a, some b, some d => some (a, b, d)
  | _, _, _ => none

/-- Perform the increment for one atom when its access succeeds. -/
def bumpCell (dim : ℕ) (g : Grid) (c : Coord3) : Grid :=
  match atomCell dim c with
  | some (a, b, d) => bump g a b d
  | none => g

/-- The inner atom loop of one frame.  The `try` block wraps the whole
loop, so the first `IndexError` aborts the remaining atoms of the frame
and is swallowed by `except IndexError: pass`. -/
def binFrame (dim : ℕ) : Grid → List Coord3 → Grid
  | g, [] => g
  | g, c :: cs =>
    match atomCell dim c with
    | some (a, b, d) => binFrame dim (bump g a b d) cs
    | none => g

/-- `water.coords[atom, :, frame]` for every atom of `m`, in atom order. -/
def frameCoords (m : Molecule) (f : ℕ) : List Coord3 :=
  m.atoms.map (fun a => a.coords.getD f ⟨0, 0, 0⟩)

/-- The frame loop `for frame in range(len(water.step))` over one water
copy. -/
def binMol (dim : ℕ) (g : Grid) (w : Molecule) : Grid :=
  (List.range w.step.length).foldl (fun g2 f => binFrame dim g2 (frameCoords w f)) g

/-- The outer binning loop `for molTraj in trajectories`.  Each molecule
is translated in place by `[D,D,D]`, the water selection is applied to a
copy, the copy is binned, and the `water` variable keeps the copy of the
most recent iteration.  Returns the final grid, the mutated trajectory
list and the leftover `water` variable. -/
def binStep (dim : ℕ) (D : ℚ) : Grid → List Molecule → Grid × List Molecule × Option Molecule
  | g, [] => (g, [], none)
  | g, m :: ms =>
    let m2 := moveBy m ⟨D, D, D⟩
    let w := filterWater m2
    let g2 := binMol dim g w
    let r := binStep dim D g2 ms
    (r.1, m2 :: r.2.1, some (r.2.2.getD w))

/-- The grid left by the binning loop, starting from `np.zeros(...)`. -/
def gridOf (dim : ℕ) (D : ℚ) (mols : List Molecule) : Grid :=
  (binStep dim D zeroGrid mols).1

/-- `len(water.step) * len(water.coords) * len(sims)` evaluated after
the binning loop (`0` stands for the `NameError` crash on an empty
trajectory list, which the theorems exclude by hypothesis). -/
def normDenom (dim : ℕ) (D : ℚ) (mols : List Molecule) : ℕ :=
  match (binStep dim D zeroGrid mols).2.2 with
  | some w => w.step.length * w.atoms.length * mols.length
  | none => 0

/-- All water-oxygen observations of one water copy, frames in order,
atoms in order within a frame (the spec-side notion of "(trajectory,
frame, atom) observation"). -/
def molObs (w : Molecule) : List Coord3 :=
  (List.range w.step.length).foldr (fun f acc => frameCoords w f ++ acc) []

/-- All observations of the run: every frame of every trajectory's
water copy, after the `[D,D,D]` translation. -/
def obsOf (D : ℚ) : List Molecule → List Coord3
  | [] => []
  | m :: ms => molObs (waterOf D m) ++ obsOf D ms

/-- The number of observations in a list whose coordinates round to the
integer triple `(i, j, k)`. -/
def countAt (l : List Coord3) (i j k : ℤ) : ℕ :=
  l.countP (fun c => decide (pyRound c.x = i ∧ pyRound c.y = j ∧ pyRound c.z = k))

/-- The rounded coordinates of `c` all lie inside `[0, dim)`. -/
def inBounds (dim : ℕ) (c : Coord3) : Prop :=
  0 ≤ pyRound c.x ∧ pyRound c.x < (dim : ℤ) ∧
  0 ≤ pyRound c.y ∧ pyRound c.y < (dim : ℤ) ∧
  0 ≤ pyRound c.z ∧ pyRound c.z < (dim : ℤ)

instance (dim : ℕ) (c : Coord3) : Decidable (inBounds dim c) := by
  unfold inBounds; infer_instance

/-- Total number of observations over all trajectories: for each
trajectory, frames of its water copy times its water-oxygen atoms. -/
def totalObs (D : ℚ) (mols : List Molecule) : ℕ :=
  (mols.map (fun m => (waterOf D m).step.length * (waterOf D m).atoms.length)).sum

/-! ### Lemmas about index resolution -/

lemma idx_of_nonneg {dim : ℕ} {r : ℤ} (h1 : 0 ≤ r) (h2 : r < (dim : ℤ)) :
    idx dim r = some r.toNat := by
  unfold idx
  rw [if_pos ⟨h1, h2⟩]

lemma idx_of_neg {dim : ℕ} {r : ℤ} (h1 : -(dim : ℤ) ≤ r) (h2 : r < 0) :
    idx dim r = some (r + dim).toNat := by
  unfold idx
  rw [if_neg (by omega), if_pos ⟨h1, h2⟩]

lemma idx_some_spec {dim : ℕ} {r : ℤ} {n : ℕ} (h : idx dim r = some n) :
    n < dim ∧ n = wrapI dim r := by
  unfold idx at h
  unfold wrapI
  split_ifs at h with h1 h2 <;> injection h with h <;> subst h <;>
    [skip; skip] <;> split_ifs with h3 <;> omega

lemma atomCell_some_spec {dim : ℕ} {c : Coord3} {a b d : ℕ}
    (h : atomCell dim c = some (a, b, d)) :
    (a < dim ∧ b < dim ∧ d < dim) ∧
    a = wrapI dim (pyRound c.x) ∧ b = wrapI dim (pyRound c.y) ∧
    d = wrapI dim (pyRound c.z) := by
  unfold atomCell at h
  cases hx : idx dim (pyRound c.x) with
  | none => rw [hx] at h; cases h
  | some a2 =>
    cases hy : idx dim (pyRound c.y) with
    | none => rw [hx, hy] at h; cases h
    | some b2 =>
      cases hz : idx dim (pyRound c.z) with
      | none => rw [hx, hy, hz] at h; cases h
      | some d2 =>
        rw [hx, hy, hz] at h
        injection h with h
        obtain ⟨rfl, rfl, rfl⟩ := Prod.mk.injEq .. ▸ (by
          have := h
          exact ⟨congrArg Prod.fst this,
            congrArg Prod.fst (congrArg Prod.snd this),
            congrArg Prod.snd (congrArg Prod.snd this)⟩ :
            a2 = a ∧ b2 = b ∧ d2 = d)
        obtain ⟨hx1, hx2⟩ := idx_some_spec hx
        obtain ⟨hy1, hy2⟩ := idx_some_spec hy
        obtain ⟨hz1, hz2⟩ := idx_some_spec hz
        exact ⟨⟨hx1, hy1, hz1⟩, hx2, hy2, hz2⟩

lemma atomCell_of_inBounds {dim : ℕ} {c : Coord3} (h : inBounds dim c) :
    atomCell dim c =
      some ((pyRound c.x).toNat, (pyRound c.y).toNat, (pyRound c.z).toNat) := by
  obtain ⟨h1, h2, h3, h4, h5, h6⟩ := h
  unfold atomCell
  rw [idx_of_nonneg h1 h2, idx_of_nonneg h3 h4, idx_of_nonneg h5 h6]

/-! ### Counting lemmas for the binning loop -/

lemma bump_val (g : Grid) (a b d x y z : ℕ) :
    bump g a b d x y z = g x y z + (if x = a ∧ y = b ∧ z = d then 1 else 0) := by
  unfold bump
  split_ifs <;> simp

lemma countAt_nil (i j k : ℤ) : countAt [] i j k = 0 := rfl

lemma countAt_cons (c : Coord3) (cs : List Coord3) (i j k : ℤ) :
    countAt (c :: cs) i j k =
      countAt cs i j k +
        (if pyRound c.x = i ∧ pyRound c.y = j ∧ pyRound c.z = k then 1 else 0) := by
  unfold countAt
  rw [List.countP_cons]
  by_cases h : pyRound c.x = i ∧ pyRound c.y = j ∧ pyRound c.z = k <;> simp [h]

lemma countAt_append (l1 l2 : List Coord3) (i j k : ℤ) :
    countAt (l1 ++ l2) i j k = countAt l1 i j k + countAt l2 i j k := by
  unfold countAt
  exact List.countP_append _ _ _

lemma binFrame_count {dim : ℕ} {cs : List Coord3}
    (h : ∀ c ∈ cs, inBounds dim c) :
    ∀ (g : Grid) (x y z : ℕ),
      binFrame dim g cs x y z = g x y z + countAt cs (x : ℤ) (y : ℤ) (z : ℤ) := by
  induction cs with
  | nil => intro g x y z; simp [binFrame, countAt_nil]
  | cons c cs ih =>
    intro g x y z
    have hc : inBounds dim c := h c (List.mem_cons_self c cs)
    have hcs : ∀ c2 ∈ cs, inBounds dim c2 := fun c2 hc2 => h c2 (List.mem_cons_of_mem c hc2)
    have hcell := atomCell_of_inBounds hc
    simp only [binFrame, hcell]
    rw [ih hcs, bump_val, countAt_cons]
    obtain ⟨h1, _, h3, _, h5, _⟩ := hc
    have heq : (x = (pyRound c.x).toNat ∧ y = (pyRound c.y).toNat ∧
        z = (pyRound c.z).toNat) ↔
        (pyRound c.x = (x : ℤ) ∧ pyRound c.y = (y : ℤ) ∧ pyRound c.z = (z : ℤ)) := by
      omega
    rw [if_congr heq rfl rfl]
    omega

lemma binFold_count {dim : ℕ} {w : Molecule} (fs : List ℕ)
    (h : ∀ c ∈ fs.foldr (fun f acc => frameCoords w f ++ acc) [], inBounds dim c) :
    ∀ (g : Grid) (x y z : ℕ),
      (fs.foldl (fun g2 f => binFrame dim g2 (frameCoords w f)) g) x y z =
        g x y z +
          countAt (fs.foldr (fun f acc => frameCoords w f ++ acc) []) (x : ℤ) (y : ℤ) (z : ℤ) := by
  induction fs with
  | nil => intro g x y z; simp [countAt_nil]
  | cons f fs ih =>
    intro g x y z
    simp only [List.foldl_cons, List.foldr_cons] at *
    have hf : ∀ c ∈ frameCoords w f, inBounds dim c := by
      intro c hc
      exact h c (List.mem_append_left _ hc)
    have hfs : ∀ c ∈ fs.foldr (fun f2 acc => frameCoords w f2 ++ acc) [], inBounds dim c := by
      intro c hc
      exact h c (List.mem_append_right _ hc)
    rw [ih hfs, binFrame_count hf, countAt_append]
    omega

lemma binMol_count {dim : ℕ} {w : Molecule}
    (h : ∀ c ∈ molObs w, inBounds dim c) (g : Grid) (x y z : ℕ) :
    binMol dim g w x y z = g x y z + countAt (molObs w) (x : ℤ) (y : ℤ) (z : ℤ) :=
  binFold_count (List.range w.step.length) h g x y z

lemma binStep_count {dim : ℕ} {D : ℚ} {mols : List Molecule}
    (h : ∀ c ∈ obsOf D mols, inBounds dim c) :
    ∀ (g : Grid) (x y z : ℕ),
      (binStep dim D g mols).1 x y z =
        g x y z + countAt (obsOf D mols) (x : ℤ) (y : ℤ) (z : ℤ) := by
  induction mols with
  | nil => intro g x y z; simp [binStep, obsOf, countAt_nil]
  | cons m ms ih =>
    intro g x y z
    have hm : ∀ c ∈ molObs (waterOf D m), inBounds dim c := by
      intro c hc
      exact h c (by simp only [obsOf]; exact List.mem_append_left _ hc)
    have hms : ∀ c ∈ obsOf D ms, inBounds dim c := by
      intro c hc
      exact h c (by simp only [obsOf]; exact List.mem_append_right _ hc)
    show (binStep dim D (binMol dim g (waterOf D m)) ms).1 x y z = _
    rw [ih hms, binMol_count hm, obsOf, countAt_append]
    omega

/-! ### The leftover `water` variable -/

lemma getLast?_eq_some_mem {α : Type} :
    ∀ (l : List α) (a : α), l.getLast? = some a → a ∈ l := by
  intro l
  induction l with
  | nil => intro a h; cases h
  | cons x xs ih =>
    intro a h
    cases xs with
    | nil =>
      simp only [List.getLast?_singleton] at h
      injection h with h
      subst h
      exact List.mem_singleton_self x
    | cons y ys =>
      rw [List.getLast?_cons_cons] at h
      exact List.mem_cons_of_mem x (ih a h)

lemma exists_getLast? {α : Type} (l : List α) (h : l ≠ []) :
    ∃ a, l.getLast? = some a ∧ a ∈ l := by
  induction l with
  | nil => exact absurd rfl h
  | cons x xs ih =>
    cases hxs : xs with
    | nil => exact ⟨x, rfl, List.mem_singleton_self x⟩
    | cons y ys =>
      obtain ⟨a, ha1, ha2⟩ := ih (by simp [hxs])
      subst hxs
      exact ⟨a, by rw [List.getLast?_cons_cons]; exact ha1, List.mem_cons_of_mem x ha2⟩

/-! ### The Gaussian filter (`scipy.ndimage.gaussian_filter(matrix, 1.5)`)

Modelled from scipy: kernel radius `lw = int(truncate * sigma + 0.5)`
with `truncate = 4.0`; 1D kernel `exp(-x^2 / (2 sigma^2))` for
`x = -lw .. lw`, normalized to sum 1; the 3D filter applies the 1D
correlation along each axis in turn with the `reflect` boundary mode. -/

/-- scipy kernel radius: `lw = int(truncate * sigma + 0.5)`, `truncate = 4.0`. -/
def gaussRadius (σ : ℚ) : ℕ := (⌊4 * σ + 1/2⌋).toNat

/-- Unnormalized Gaussian kernel value `exp(-x^2 / (2 sigma^2))`. -/
noncomputable def gaussPhi (σ : ℚ) (r : ℤ) : ℝ :=
  Real.exp (-(r : ℝ) ^ 2 / (2 * (σ : ℝ) ^ 2))

/-- Sum of the kernel values over `-lw .. lw`. -/
noncomputable def gaussSum (σ : ℚ) : ℝ :=
  ∑ r ∈ Finset.Icc (-(gaussRadius σ : ℤ)) (gaussRadius σ : ℤ), gaussPhi σ r

/-- Normalized kernel weight. -/
noncomputable def gaussW (σ : ℚ) (r : ℤ) : ℝ := gaussPhi σ r / gaussSum σ

/-- scipy `reflect` boundary mode: indices reflected about the array
edges (`d c b a | a b c d | d c b a`), periodic with period `2n`. -/
def reflectIdx (n : ℕ) (i : ℤ) : ℕ :=
  if n = 0 then 0
  else
    let j := i.emod (2 * n)
    if j < (n : ℤ) then j.toNat else (2 * n - 1 - j).toNat

/-- A real-valued 3D array (the matrix after smoothing). -/
def Grid3R := ℕ → ℕ → ℕ → ℝ

/-- 1D Gaussian correlation along the first axis. -/
noncomputable def pass1 (σ : ℚ) (n : ℕ) (g : Grid3R) : Grid3R :=
  fun i j k => ∑ r ∈ Finset.Icc (-(gaussRadius σ : ℤ)) (gaussRadius σ : ℤ),
    gaussW σ r * g (reflectIdx n ((i : ℤ) + r)) j k

/-- 1D Gaussian correlation along the second axis. -/
noncomputable def pass2 (σ : ℚ) (n : ℕ) (g : Grid3R) : Grid3R :=
  fun i j k => ∑ r ∈ Finset.Icc (-(gaussRadius σ : ℤ)) (gaussRadius σ : ℤ),
    gaussW σ r * g i (reflectIdx n ((j : ℤ) + r)) k

/-- 1D Gaussian correlation along the third axis. -/
noncomputable def pass3 (σ : ℚ) (n : ℕ) (g : Grid3R) : Grid3R :=
  fun i j k => ∑ r ∈ Finset.Icc (-(gaussRadius σ : ℤ)) (gaussRadius σ : ℤ),
    gaussW σ r * g i j (reflectIdx n ((k : ℤ) + r))

/-- `ndimage.gaussian_filter` on a cubic array of side `n`: the three
1D passes applied axis by axis. -/
noncomputable def gaussianFilter3 (σ : ℚ) (n : ℕ) (g : Grid3R) : Grid3R :=
  pass3 σ n (pass2 σ n (pass1 σ n g))

/-- `kB = 0.001987191` (kcal/mol/K). -/
noncomputable def kB : ℝ := 0.001987191

/-- `T = 298` (K). -/
noncomputable def T : ℝ := 298

/-- `matrix = ndimage.gaussian_filter(matrix, 1.5)` applied to the
histogram produced by the binning loop. -/
noncomputable def smoothedOf (dim : ℕ) (D : ℚ) (mols : List Molecule) : Grid3R :=
  gaussianFilter3 (3/2) dim (fun i j k => (gridOf dim D mols i j k : ℝ))

/-- `norm_matrix = matrix / (len(water.step) * len(water.coords) * len(sims))`. -/
noncomputable def normMatrixOf (dim : ℕ) (D : ℚ) (mols : List Molecule) : Grid3R :=
  fun i j k => smoothedOf dim D mols i j k / (normDenom dim D mols : ℝ)

/-- `occupancy = - kB * T * np.log(norm_matrix + 1e-20)`. -/
noncomputable def occupancyOf (dim : ℕ) (D : ℚ) (mols : List Molecule) : Grid3R :=
  fun i j k => -(kB * T * Real.log (normMatrixOf dim D mols i j k + 1e-20))

/-! ### Positivity facts about the filter -/

lemma gaussPhi_pos (σ : ℚ) (r : ℤ) : 0 < gaussPhi σ r := Real.exp_pos _

lemma gaussSum_pos (σ : ℚ) : 0 < gaussSum σ := by
  apply Finset.sum_pos (fun i _ => gaussPhi_pos σ i)
  exact Finset.nonempty_Icc.mpr (by omega)

lemma gaussW_nonneg (σ : ℚ) (r : ℤ) : 0 ≤ gaussW σ r :=
  le_of_lt (div_pos (gaussPhi_pos σ r) (gaussSum_pos σ))

lemma pass1_nonneg {σ : ℚ} {n : ℕ} {g : Grid3R}
    (h : ∀ i j k, 0 ≤ g i j k) : ∀ i j k, 0 ≤ pass1 σ n g i j k :=
  fun _ _ _ => Finset.sum_nonneg (fun r _ => mul_nonneg (gaussW_nonneg σ r) (h _ _ _))

lemma pass2_nonneg {σ : ℚ} {n : ℕ} {g : Grid3R}
    (h : ∀ i j k, 0 ≤ g i j k) : ∀ i j k, 0 ≤ pass2 σ n g i j k :=
  fun _ _ _ => Finset.sum_nonneg (fun r _ => mul_nonneg (gaussW_nonneg σ r) (h _ _ _))

lemma pass3_nonneg {σ : ℚ} {n : ℕ} {g : Grid3R}
    (h : ∀ i j k, 0 ≤ g i j k) : ∀ i j k, 0 ≤ pass3 σ n g i j k :=
  fun _ _ _ => Finset.sum_nonneg (fun r _ => mul_nonneg (gaussW_nonneg σ r) (h _ _ _))

lemma gaussianFilter3_nonneg {σ : ℚ} {n : ℕ} {g : Grid3R}
    (h : ∀ i j k, 0 ≤ g i j k) : ∀ i j k, 0 ≤ gaussianFilter3 σ n g i j k :=
  pass3_nonneg (pass2_nonneg (pass1_nonneg h))

lemma binStep_water (dim : ℕ) (D : ℚ) :
    ∀ (g : Grid) (mols : List Molecule),
      (binStep dim D g mols).2.2 = mols.getLast?.map (waterOf D) := by
  intro g mols
  induction mols generalizing g with
  | nil => rfl
  | cons m ms ih =>
    cases ms with
    | nil => rfl
    | cons m2 ms2 =>
      show some (((binStep dim D _ (m2 :: ms2)).2.2).getD _) = _
      rw [ih]
      rw [List.getLast?_cons_cons]
      obtain ⟨a, ha, _⟩ := exists_getLast? (m2 :: ms2) (by simp)
      rw [ha]
      rfl

/-! ### The notebook as a fixed sequence of steps -/

/-- The nine stages of the notebook, in source order. -/
inductive StepL
  | load | align | boundDist | allocGrid | binCoords | smooth | normalizeLog | writeVox | visualize
deriving DecidableEq

/-- The run's external inputs: the trajectory data found on disk, and
the two HTMD library routines the notebook calls on whole molecules
(`wrap('protein')`/`align('protein')`, and `maxDistance(mol, 'all')`). -/
structure Env where
  rawSims : List Molecule
  wrapAlign : Molecule → Molecule
  maxDist : Molecule → ℚ

/-- The arguments the notebook passes to `writeVoxels`. -/
structure VoxOut where
  data : Grid3R
  vecMin : ℕ × ℕ × ℕ
  vecMax : ℕ × ℕ × ℕ
  vecRes : ℕ × ℕ × ℕ

/-- The notebook's variables, one field per live name. -/
structure NState where
  sims : List Molecule
  trajectories : List Molecule
  Dmax : ℤ
  dim : ℕ
  grid : Grid
  water : Option Molecule
  smoothed : Grid3R
  normM : Grid3R
  occ : Grid3R
  outFile : Option VoxOut
  viewed : Bool

/-- The state before the first cell runs. -/
def initState : NState :=
  ⟨[], [], 0, 0, zeroGrid, none, fun _ _ _ => 0, fun _ _ _ => 0, fun _ _ _ => 0, none, false⟩

/-- `D_max = int(np.max(np.round(D)))`: round every distance half to
even, take the maximum (the code crashes on an empty list; `0` stands
in for that unreachable case). -/
def computeDmax (ds : List ℚ) : ℤ :=
  match ds.map pyRound with
  | [] => 0
  | x :: xs => xs.foldl max x

/-- Cell 8: `sims = simlist(...)`. -/
def loadF (env : Env) (s : NState) : NState :=
  { s with sims := env.rawSims }

/-- Cells 10-12: wrap/align each simulation into `trajectories`. -/
def alignF (env : Env) (s : NState) : NState :=
  { s with trajectories := s.sims.map env.wrapAlign }

/-- Cells 14-15: `D_max` from the per-trajectory maximum distances. -/
def boundF (env : Env) (s : NState) : NState :=
  { s with Dmax := computeDmax (s.trajectories.map env.maxDist) }

/-- Cell 18: `dim_matrix = (D_max * 2) + 10; matrix = np.zeros(...)`. -/
def allocF (_env : Env) (s : NState) : NState :=
  { s with dim := (s.Dmax * 2 + 10).toNat, grid := zeroGrid }

/-- Cell 21: the binning loop (translates the trajectories in place,
fills the grid, leaves the last `water` copy behind). -/
def binF (_env : Env) (s : NState) : NState :=
  let r := binStep s.dim (s.Dmax : ℚ) s.grid s.trajectories
  { s with grid := r.1, trajectories := r.2.1, water := r.2.2 }

/-- Cell 23: `matrix = ndimage.gaussian_filter(matrix, 1.5)`. -/
noncomputable def smoothF (_env : Env) (s : NState) : NState :=
  { s with smoothed := gaussianFilter3 (3/2) s.dim (fun i j k => (s.grid i j k : ℝ)) }

/-- Cells 25-29: normalization and the logarithmic transform. -/
noncomputable def normLogF (_env : Env) (s : NState) : NState :=
  let denom : ℕ :=
    match s.water with
    | some w => w.step.length * w.atoms.length * s.sims.length
    | none => 0
  let nm : Grid3R := fun i j k => s.smoothed i j k / (denom : ℝ)
  { s with normM := nm, occ := fun i j k => -(kB * T * Real.log (nm i j k + 1e-20)) }

/-- Cells 32-34: `writeVoxels(occupancy, 'box.cube', vecMin, vecMax, vecRes)`. -/
def writeF (_env : Env) (s : NState) : NState :=
  { s with outFile := some ⟨s.occ, (0, 0, 0), (s.dim, s.dim, s.dim), (1, 1, 1)⟩ }

/-- Cell 36: `molTraj.view(...)`. -/
def viewF (_env : Env) (s : NState) : NState :=
  { s with viewed := true }

/-- The notebook, top to bottom: the labelled list of its nine stages. -/
noncomputable def notebookProgram (env : Env) : List (StepL × (NState → NState)) :=
  [(StepL.load, loadF env), (StepL.align, alignF env), (StepL.boundDist, boundF env),
   (StepL.allocGrid, allocF env), (StepL.binCoords, binF env), (StepL.smooth, smoothF env),
   (StepL.normalizeLog, normLogF env), (StepL.writeVox, writeF env),
   (StepL.visualize, viewF env)]

/-- Execute a labelled program in order from a state. -/
def runProg (p : List (StepL × (NState → NState))) (s : NState) : NState :=
  p.foldl (fun st step => step.2 st) s

/-- A complete top-to-bottom run of the notebook. -/
noncomputable def runNotebook (env : Env) : NState :=
  runProg (notebookProgram env) initState

/-! ### Concrete inputs used by witnesses and counterexamples -/

/-- One trajectory, one frame, one water-oxygen atom at the origin. -/
def M0 : Molecule := ⟨[⟨true, [⟨0, 0, 0⟩]⟩], [0]⟩

/-- One frame, two water-oxygen atoms: the first far out of bounds, the
second at the origin. -/
def Mbad : Molecule := ⟨[⟨true, [⟨100, 0, 0⟩]⟩, ⟨true, [⟨0, 0, 0⟩]⟩], [0]⟩

/-- One frame, one water-oxygen atom at `x = -31/5`, which rounds to a
negative index after translation by `5`. -/
def M3 : Molecule := ⟨[⟨true, [⟨-31/5, 0, 0⟩]⟩], [0]⟩

/-- One frame, one water-oxygen atom at `y = -73/10`, which rounds to a
negative index after translation by `5`. -/
def M4 : Molecule := ⟨[⟨true, [⟨0, -73/10, 0⟩]⟩], [0]⟩

/-- One frame, four water-oxygen atoms. -/
def mA : Molecule :=
  ⟨[⟨true, [⟨0, 0, 0⟩]⟩, ⟨true, [⟨1, 0, 0⟩]⟩, ⟨true, [⟨2, 0, 0⟩]⟩, ⟨true, [⟨3, 0, 0⟩]⟩], [0]⟩

/-- Two frames, two water-oxygen atoms. -/
def mB : Molecule :=
  ⟨[⟨true, [⟨0, 0, 0⟩, ⟨0, 1, 0⟩]⟩, ⟨true, [⟨1, 0, 0⟩, ⟨1, 1, 0⟩]⟩], [0, 1]⟩

/-- A trivial environment for closed witnesses. -/
def envA : Env := ⟨[], id, fun _ => 0⟩

/-! ### Claim theorems -/

/-- Claim C1, counterexample.  With `D_max = 5` (`dim_matrix = 20`) the
trajectory `Mbad` has one frame whose first atom is far out of bounds
and whose second atom lands, after translation, exactly on the in-bounds
cell `(5,5,5)`; that rounded-in-bounds observation exists (`countAt = 1`)
yet its cell is never incremented, because the `IndexError` raised by the
first atom aborts the rest of the frame's inner loop. -/
theorem c1_counterexample :
    inBounds (2 * 5 + 10) (⟨5, 5, 5⟩ : Coord3) ∧
    countAt (obsOf ((5 : ℕ) : ℚ) [Mbad]) 5 5 5 = 1 ∧
    gridOf (2 * 5 + 10) ((5 : ℕ) : ℚ) [Mbad] 5 5 5 = 0 := by
  refine ⟨?_, ?_, ?_⟩
  · norm_num [inBounds, pyRound]
  · norm_num [countAt_cons, countAt_nil, obsOf, molObs, frameCoords, waterOf, moveBy,
      filterWater, translate, pyRound, Mbad, List.range_succ]
  · norm_num [gridOf, binStep, binMol, binFrame, frameCoords, atomCell, idx, pyRound,
      moveBy, filterWater, waterOf, translate, bump, zeroGrid, Mbad, List.range_succ,
      Int.toNat_ofNat]

/-- Claim C1, amended: an out-of-bounds grid index is silently discarded
together with all remaining atoms of the same frame — the inner atom
loop of a frame bins exactly the maximal leading run of atoms whose
chained index access succeeds, the offending increment never happens,
and no error escapes (`binFrame` is total). -/
theorem c1_amended (dim : ℕ) (g : Grid) (cs : List Coord3) :
    binFrame dim g cs =
      (cs.takeWhile (fun c => (atomCell dim c).isSome)).foldl (bumpCell dim) g := by
  induction cs generalizing g with
  | nil => rfl
  | cons c cs ih =>
    cases h : atomCell dim c with
    | none =>
      simp only [binFrame, h, List.takeWhile_cons, Option.isSome_none,
        Bool.false_eq_true, if_false, List.foldl_nil]
    | some v =>
      obtain ⟨a, b, d⟩ := v
      simp only [binFrame, h, List.takeWhile_cons, Option.isSome_some, if_true,
        List.foldl_cons]
      rw [ih]
      have hb : bumpCell dim g c = bump g a b d := by
        simp [bumpCell, h]
      rw [hb]

/-- Claim C3, counterexample.  With `D_max = 5` the single observation
of `M3` has translated coordinates `(-6/5, 5, 5)` which round to
`(-1, 5, 5)`; Python's negative indexing silently wraps it into cell
`(19, 5, 5)`, so that cell holds `1` although no observation rounds to
`(19, 5, 5)`. -/
theorem c3_counterexample :
    gridOf (2 * 5 + 10) ((5 : ℕ) : ℚ) [M3] 19 5 5 = 1 ∧
    countAt (obsOf ((5 : ℕ) : ℚ) [M3]) 19 5 5 = 0 ∧
    gridOf (2 * 5 + 10) ((5 : ℕ) : ℚ) [M3] 19 5 5 ≠
      countAt (obsOf ((5 : ℕ) : ℚ) [M3]) 19 5 5 := by
  have h1 : gridOf (2 * 5 + 10) ((5 : ℕ) : ℚ) [M3] 19 5 5 = 1 := by
    norm_num [gridOf, binStep, binMol, binFrame, frameCoords, atomCell, idx, pyRound,
      moveBy, filterWater, waterOf, translate, bump, zeroGrid, M3, List.range_succ,
      Int.toNat_ofNat]
    decide
  have h2 : countAt (obsOf ((5 : ℕ) : ℚ) [M3]) 19 5 5 = 0 := by
    norm_num [countAt_cons, countAt_nil, obsOf, molObs, frameCoords, waterOf, moveBy,
      filterWater, translate, pyRound, M3, List.range_succ]
  exact ⟨h1, h2, by rw [h1, h2]; exact one_ne_zero⟩

/-- Claim C3, amended: provided every observation's rounded translated
coordinates fall inside `[0, dim_matrix)` in all three dimensions
(`dim_matrix = 2 D_max + 10`), each grid cell `(i,j,k)` holds after the
binning loop exactly the number of (trajectory, frame, atom)
observations whose coordinates, after translation by
`[D_max, D_max, D_max]`, round to `(i,j,k)`. -/
theorem c3_amended (Dmax : ℕ) (mols : List Molecule)
    (h : ∀ c ∈ obsOf (Dmax : ℚ) mols, inBounds (2 * Dmax + 10) c)
    (x y z : ℕ) :
    gridOf (2 * Dmax + 10) (Dmax : ℚ) mols x y z =
      countAt (obsOf (Dmax : ℚ) mols) (x : ℤ) (y : ℤ) (z : ℤ) := by
  unfold gridOf
  rw [binStep_count h zeroGrid x y z]
  simp [zeroGrid]

/-- Claim C3, amended theorem witness at a concrete in-bounds input:
one observation at the origin, translated to `(5,5,5)`. -/
theorem c3_witness :
    (∀ c ∈ obsOf ((5 : ℕ) : ℚ) [M0], inBounds (2 * 5 + 10) c) ∧
    gridOf (2 * 5 + 10) ((5 : ℕ) : ℚ) [M0] 5 5 5 =
      countAt (obsOf ((5 : ℕ) : ℚ) [M0]) ((5 : ℕ) : ℤ) ((5 : ℕ) : ℤ) ((5 : ℕ) : ℤ) :=
  have hall : ∀ c ∈ obsOf ((5 : ℕ) : ℚ) [M0], inBounds (2 * 5 + 10) c := by
    norm_num [obsOf, molObs, frameCoords, waterOf, moveBy, filterWater, translate,
      M0, List.range_succ, inBounds, pyRound]
  ⟨hall, c3_amended 5 [M0] hall 5 5 5⟩

/-- Claim C4, counterexample.  With `D_max = 5` (`dim_matrix = 20`) the
observation of `M4` has translated `y`-coordinate `-23/10`, whose
rounded index `-2` lies outside `[0, 20)`; the binning loop nevertheless
performs the increment, accumulating it into the wrapped cell
`(5, 18, 5)` — a cell no observation's rounded coordinates designate. -/
theorem c4_counterexample :
    gridOf (2 * 5 + 10) ((5 : ℕ) : ℚ) [M4] 5 18 5 = 1 ∧
    pyRound ((-73/10 : ℚ) + 5) < 0 ∧
    countAt (obsOf ((5 : ℕ) : ℚ) [M4]) 5 18 5 = 0 := by
  refine ⟨?_, ?_, ?_⟩
  · norm_num [gridOf, binStep, binMol, binFrame, frameCoords, atomCell, idx, pyRound,
      moveBy, filterWater, waterOf, translate, bump, zeroGrid, M4, List.range_succ,
      Int.toNat_ofNat]
    decide
  · norm_num [pyRound]
  · norm_num [countAt_cons, countAt_nil, obsOf, molObs, frameCoords, waterOf, moveBy,
      filterWater, translate, pyRound, M4, List.range_succ]

/-- Claim C4, amended: every increment performed by the binning loop
does write a cell of the allocated cube (all effective indices are below
`dim_matrix = 2 D_max + 10`), but the effective indices are the Python
wrap of the rounded coordinates — only when all three rounded indices
already lie in `[0, dim_matrix)` is the incremented cell the one the
rounded coordinates designate. -/
theorem c4_amended (Dmax : ℕ) (c : Coord3) (a b d : ℕ)
    (h : atomCell (2 * Dmax + 10) c = some (a, b, d)) :
    (a < 2 * Dmax + 10 ∧ b < 2 * Dmax + 10 ∧ d < 2 * Dmax + 10) ∧
    (a = wrapI (2 * Dmax + 10) (pyRound c.x) ∧
     b = wrapI (2 * Dmax + 10) (pyRound c.y) ∧
     d = wrapI (2 * Dmax + 10) (pyRound c.z)) ∧
    (inBounds (2 * Dmax + 10) c →
      pyRound c.x = (a : ℤ) ∧ pyRound c.y = (b : ℤ) ∧ pyRound c.z = (d : ℤ)) := by
  obtain ⟨hlt, ha, hb, hd⟩ := atomCell_some_spec h
  refine ⟨hlt, ⟨ha, hb, hd⟩, ?_⟩
  intro hib
  obtain ⟨h1, _, h3, _, h5, _⟩ := hib
  subst ha hb hd
  unfold wrapI
  rw [if_pos h1, if_pos h3, if_pos h5]
  omega

/-- Claim C4, amended theorem witness: the in-bounds access at
`(5,5,5)` with `D_max = 5`. -/
theorem c4_witness :
    atomCell (2 * 5 + 10) (⟨5, 5, 5⟩ : Coord3) = some (5, 5, 5) ∧
    (5 < 2 * 5 + 10 ∧ 5 < 2 * 5 + 10 ∧ 5 < 2 * 5 + 10) :=
  have hcell : atomCell (2 * 5 + 10) (⟨5, 5, 5⟩ : Coord3) = some (5, 5, 5) := by
    norm_num [atomCell, idx, pyRound]
    decide
  ⟨hcell, (c4_amended 5 ⟨5, 5, 5⟩ 5 5 5 hcell).1⟩

/-- Claim C8: a translated coordinate that rounds, in some dimension, to
a negative index of magnitude at most `dim` raises no `IndexError` from
that index — numpy resolves it to the cell `dim + r`, near the opposite
edge — and when every dimension's rounded index lies in the valid Python
range `[-dim, dim)`, the observation is not discarded: the increment is
performed at the wrapped cell. -/
theorem c8_negative_wrap :
    (∀ (dim : ℕ) (r : ℤ), -(dim : ℤ) ≤ r → r < 0 →
      idx dim r = some (r + dim).toNat) ∧
    (∀ (dim : ℕ) (c : Coord3),
      -(dim : ℤ) ≤ pyRound c.x → pyRound c.x < (dim : ℤ) →
      -(dim : ℤ) ≤ pyRound c.y → pyRound c.y < (dim : ℤ) →
      -(dim : ℤ) ≤ pyRound c.z → pyRound c.z < (dim : ℤ) →
      (pyRound c.x < 0 ∨ pyRound c.y < 0 ∨ pyRound c.z < 0) →
      atomCell dim c =
        some (wrapI dim (pyRound c.x), wrapI dim (pyRound c.y),
          wrapI dim (pyRound c.z))) := by
  constructor
  · intro dim r h1 h2
    exact idx_of_neg h1 h2
  · intro dim c hx1 hx2 hy1 hy2 hz1 hz2 _
    have hidx : ∀ r : ℤ, -(dim : ℤ) ≤ r → r < (dim : ℤ) →
        idx dim r = some (wrapI dim r) := by
      intro r h1 h2
      unfold wrapI
      by_cases h0 : 0 ≤ r
      · rw [if_pos h0]
        exact idx_of_nonneg h0 h2
      · rw [if_neg h0]
        exact idx_of_neg h1 (by omega)
    unfold atomCell
    rw [hidx _ hx1 hx2, hidx _ hy1 hy2, hidx _ hz1 hz2]

/-- Claim C8 witness: with `dim = 20`, the index `-1` resolves to cell
`19`, and the coordinate `(-6/5, 0, 0)` (negative rounded `x`) is binned
into `(19, 0, 0)` without an `IndexError`. -/
theorem c8_witness :
    idx 20 (-1) = some ((-1 : ℤ) + 20).toNat ∧
    atomCell 20 (⟨-6/5, 0, 0⟩ : Coord3) =
      some (wrapI 20 (pyRound (-6/5 : ℚ)), wrapI 20 (pyRound (0 : ℚ)),
        wrapI 20 (pyRound (0 : ℚ))) :=
  ⟨c8_negative_wrap.1 20 (-1) (by decide) (by decide),
   c8_negative_wrap.2 20 ⟨-6/5, 0, 0⟩ (by norm_num [pyRound]) (by norm_num [pyRound])
     (by norm_num [pyRound]) (by norm_num [pyRound]) (by norm_num [pyRound])
     (by norm_num [pyRound]) (Or.inl (by norm_num [pyRound]))⟩

/-! ### Helper lemmas for the normalization claims -/

lemma normDenom_eq {dim : ℕ} {D : ℚ} {mols : List Molecule} {F N : ℕ}
    (hne : mols ≠ [])
    (hF : ∀ m ∈ mols, (waterOf D m).step.length = F)
    (hN : ∀ m ∈ mols, (waterOf D m).atoms.length = N) :
    normDenom dim D mols = F * N * mols.length := by
  obtain ⟨l, hl, hmem⟩ := exists_getLast? mols hne
  unfold normDenom
  rw [binStep_water dim D zeroGrid mols, hl]
  show (waterOf D l).step.length * (waterOf D l).atoms.length * mols.length = _
  rw [hF l hmem, hN l hmem]

lemma totalObs_const (D : ℚ) (F N : ℕ) : ∀ (mols : List Molecule),
    (∀ m ∈ mols, (waterOf D m).step.length = F) →
    (∀ m ∈ mols, (waterOf D m).atoms.length = N) →
    totalObs D mols = mols.length * (F * N) := by
  intro mols
  induction mols with
  | nil => intro _ _; simp [totalObs]
  | cons m ms ih =>
    intro hF hN
    have hF2 : ∀ m2 ∈ ms, (waterOf D m2).step.length = F :=
      fun m2 hm2 => hF m2 (List.mem_cons_of_mem m hm2)
    have hN2 : ∀ m2 ∈ ms, (waterOf D m2).atoms.length = N :=
      fun m2 hm2 => hN m2 (List.mem_cons_of_mem m hm2)
    have hms := ih hF2 hN2
    unfold totalObs at hms ⊢
    simp only [List.map_cons, List.sum_cons, List.length_cons]
    rw [hF m (List.mem_cons_self m ms), hN m (List.mem_cons_self m ms), hms]
    ring

/-- Claim C2: every cell of the final map equals
`-kB*T*log(p + 1e-20)` with `kB = 0.001987191`, `T = 298`, where `p` is
the Gaussian-smoothed (`sigma = 1.5`) histogram value at that cell
divided by (number of frames) * (number of water-oxygen atoms) *
(number of trajectories); the smoothing is applied to the raw counts
(before normalization) and the normalization happens inside the
logarithm's argument (before the transform).  The frame and atom counts
are assumed uniform across trajectories so that "the number of frames"
and "the number of water-oxygen atoms" are well defined. -/
theorem c2_occupancy_formula (dim : ℕ) (D : ℚ) (mols : List Molecule) (F N : ℕ)
    (hne : mols ≠ [])
    (hF : ∀ m ∈ mols, (waterOf D m).step.length = F)
    (hN : ∀ m ∈ mols, (waterOf D m).atoms.length = N) :
    smoothedOf dim D mols =
      gaussianFilter3 (3/2) dim (fun i j k => (gridOf dim D mols i j k : ℝ)) ∧
    ∀ i j k, occupancyOf dim D mols i j k =
      -((0.001987191 : ℝ) * 298 *
        Real.log (smoothedOf dim D mols i j k / ((F * N * mols.length : ℕ) : ℝ) + 1e-20)) := by
  refine ⟨rfl, fun i j k => ?_⟩
  simp only [occupancyOf, normMatrixOf, kB, T]
  rw [normDenom_eq hne hF hN]

/-- Claim C2 witness: one trajectory with one frame and one water
oxygen, evaluated at cell `(0,0,0)`. -/
theorem c2_witness :
    ([M0] ≠ []) ∧
    occupancyOf 20 ((5 : ℕ) : ℚ) [M0] 0 0 0 =
      -((0.001987191 : ℝ) * 298 *
        Real.log (smoothedOf 20 ((5 : ℕ) : ℚ) [M0] 0 0 0 /
          ((1 * 1 * [M0].length : ℕ) : ℝ) + 1e-20)) :=
  ⟨by simp, (c2_occupancy_formula 20 ((5 : ℕ) : ℚ) [M0] 1 1 (by simp)
      (by simp [waterOf, moveBy, filterWater, M0])
      (by simp [waterOf, moveBy, filterWater, M0])).2 0 0 0⟩

/-- Claim C6: the argument passed to the logarithm,
`norm_matrix + 1e-20`, is strictly positive at every cell: the raw
histogram counts are nonnegative, Gaussian smoothing preserves
nonnegativity (all kernel weights are positive), division by the
positive denominator preserves it, and adding `1e-20` makes it strictly
positive — so a logarithm of zero is never taken. -/
theorem c6_log_argument_pos (dim : ℕ) (D : ℚ) (mols : List Molecule)
    (hd : 0 < normDenom dim D mols) (i j k : ℕ) :
    (0 : ℝ) ≤ (gridOf dim D mols i j k : ℝ) ∧
    0 ≤ smoothedOf dim D mols i j k ∧
    0 ≤ normMatrixOf dim D mols i j k ∧
    0 < normMatrixOf dim D mols i j k + 1e-20 := by
  have h1 : ∀ a b c, (0 : ℝ) ≤ ((gridOf dim D mols a b c : ℕ) : ℝ) :=
    fun _ _ _ => Nat.cast_nonneg _
  have h2 : ∀ a b c, 0 ≤ smoothedOf dim D mols a b c :=
    gaussianFilter3_nonneg h1
  have h3 : 0 ≤ normMatrixOf dim D mols i j k := by
    have := hd
    exact div_nonneg (h2 i j k) (Nat.cast_nonneg _)
  have h4 : (0 : ℝ) < 1e-20 := by norm_num
  exact ⟨h1 i j k, h2 i j k, h3, by linarith⟩

/-- Claim C6 witness: the concrete one-observation run, whose
denominator `1 * 1 * 1` is positive, at cell `(0,0,0)`. -/
theorem c6_witness :
    0 < normDenom 20 ((5 : ℕ) : ℚ) [M0] ∧
    0 < normMatrixOf 20 ((5 : ℕ) : ℚ) [M0] 0 0 0 + 1e-20 :=
  have hd : 0 < normDenom 20 ((5 : ℕ) : ℚ) [M0] := by
    simp [normDenom, binStep, waterOf, moveBy, filterWater, M0]
  ⟨hd, (c6_log_argument_pos 20 ((5 : ℕ) : ℚ) [M0] hd 0 0 0).2.2.2⟩

/-- Claim C9, counterexample to "only when": with trajectory `mA` (one
frame, four water oxygens) followed by `mB` (two frames, two water
oxygens), the divisor taken from the last trajectory's water copy is
`2 * 2 * 2 = 8`, which happens to equal the total number of
observations `1*4 + 2*2 = 8` although the trajectories do not share a
frame count. -/
theorem c9_counterexample :
    normDenom 20 0 [mA, mB] = totalObs 0 [mA, mB] ∧
    normDenom 20 0 [mA, mB] = 8 ∧
    (waterOf 0 mA).step.length ≠ (waterOf 0 mB).step.length := by
  refine ⟨?_, ?_, ?_⟩ <;>
    simp [normDenom, totalObs, binStep, waterOf, moveBy, filterWater, mA, mB]

/-- Claim C9, amended: the normalization denominator is computed from
the `water` variable left over from the final iteration of the binning
loop — it is `len(water.step) * len(water.coords) * len(sims)` for the
last trajectory's water copy — and whenever every trajectory has the
same frame count and the same water-oxygen atom count this divisor
equals the total number of observations (it can also coincide with it
accidentally for unequal trajectories). -/
theorem c9_denominator (dim : ℕ) (D : ℚ) :
    (∀ (g : Grid) (mols : List Molecule),
      (binStep dim D g mols).2.2 = mols.getLast?.map (waterOf D)) ∧
    (∀ (mols : List Molecule) (F N : ℕ),
      mols ≠ [] →
      (∀ m ∈ mols, (waterOf D m).step.length = F) →
      (∀ m ∈ mols, (waterOf D m).atoms.length = N) →
      normDenom dim D mols = totalObs D mols) := by
  constructor
  · exact binStep_water dim D
  · intro mols F N hne hF hN
    rw [normDenom_eq hne hF hN, totalObs_const D F N mols hF hN]
    ring

/-- Claim C9 witness: a single uniform trajectory (one frame, four
water oxygens), for which the divisor equals the observation total. -/
theorem c9_witness :
    ([mA] ≠ []) ∧ normDenom 20 0 [mA] = totalObs 0 [mA] :=
  ⟨by simp,
   (c9_denominator 20 0).2 [mA] 1 4 (by simp)
     (by simp [waterOf, moveBy, filterWater, mA])
     (by simp [waterOf, moveBy, filterWater, mA])⟩

/-- Claim C10: the binning loop mutates each trajectory only by the
`moveBy([D_max, D_max, D_max])` translation — the water selection is
applied to a copy — so after binning the trajectory list is exactly the
original list with every molecule translated, and a translated molecule
keeps its `step` array, its atom count, and every atom's selection flag,
its coordinates being shifted by the vector. -/
theorem c10_only_translation :
    (∀ (dim : ℕ) (D : ℚ) (g : Grid) (mols : List Molecule),
      (binStep dim D g mols).2.1 = mols.map (fun m => moveBy m ⟨D, D, D⟩)) ∧
    (∀ (m : Molecule) (v : Coord3),
      (moveBy m v).step = m.step ∧
      (moveBy m v).atoms.length = m.atoms.length ∧
      (moveBy m v).atoms.map AtomR.isWaterOH2 = m.atoms.map AtomR.isWaterOH2 ∧
      (moveBy m v).atoms.map AtomR.coords =
        m.atoms.map (fun a => a.coords.map (translate v))) := by
  constructor
  · intro dim D g mols
    induction mols generalizing g with
    | nil => rfl
    | cons m ms ih =>
      show (moveBy m ⟨D, D, D⟩) :: (binStep dim D _ ms).2.1 = _
      rw [List.map_cons, ih]
  · intro m v
    refine ⟨rfl, by simp [moveBy], ?_, ?_⟩ <;>
      simp [moveBy, List.map_map, Function.comp]

/-- Claim C5: the notebook is one fixed sequence — load, align/wrap,
bounding distance, grid allocation, binning, Gaussian smoothing,
normalize + log transform, volumetric write, visualize — each stage
listed exactly once, in that order, and running the program is exactly
the composition of the nine stage functions applied in that order to
the result of the predecessor. -/
theorem c5_fixed_sequence (env : Env) :
    (notebookProgram env).map Prod.fst =
      [StepL.load, StepL.align, StepL.boundDist, StepL.allocGrid, StepL.binCoords,
       StepL.smooth, StepL.normalizeLog, StepL.writeVox, StepL.visualize] ∧
    ((notebookProgram env).map Prod.fst).Nodup ∧
    ∀ s, runProg (notebookProgram env) s =
      viewF env (writeF env (normLogF env (smoothF env (binF env (allocF env
        (boundF env (alignF env (loadF env s)))))))) := by
  refine ⟨rfl, ?_, fun s => rfl⟩
  have h : (notebookProgram env).map Prod.fst =
      [StepL.load, StepL.align, StepL.boundDist, StepL.allocGrid, StepL.binCoords,
       StepL.smooth, StepL.normalizeLog, StepL.writeVox, StepL.visualize] := rfl
  rw [h]
  decide

/-- Claim C7: the pipeline is deterministic as a function of the loaded
trajectory data and library routines — two runs over identical inputs
produce identical grids, identical normalized maps, identical final
occupancy maps, and identical full final states. -/
theorem c7_deterministic (e1 e2 : Env) (h : e1 = e2) :
    (runNotebook e1).grid = (runNotebook e2).grid ∧
    (runNotebook e1).normM = (runNotebook e2).normM ∧
    (runNotebook e1).occ = (runNotebook e2).occ ∧
    runNotebook e1 = runNotebook e2 := by
  subst h
  exact ⟨rfl, rfl, rfl, rfl⟩

/-- Claim C7 witness: two runs over the same concrete environment. -/
theorem c7_witness :
    envA = envA ∧ runNotebook envA = runNotebook envA :=
  ⟨rfl, (c7_deterministic envA envA rfl).2.2.2⟩

end MSI
